import Mathlib

/-!
# Verification of the one-click-apps version resolution and comparison engine

Shallow embedding of the update-checker scripts (`scripts/check_updates.js` and
the advanced template-aware checker): image-reference parsing
(`parseDockerImage`), version comparison (`compareVersions`), update-type
classification (`determineUpdateType`), update detection (`detectUpdate`) and
template-variable resolution (`extractAppConfig`'s substitution loop).

JavaScript machine behaviour is modelled explicitly:
* `parseInt` parses an optional-sign, optional `0x`-prefixed longest digit
  prefix after skipping leading whitespace, and yields `none` for NaN;
* `x || y` falsiness: the number `0`, NaN and the empty string are falsy;
* string relational operators compare by code units (here: by `Char` values);
* `String.prototype.replace` with a string pattern replaces only the first
  occurrence and interprets `$`-escapes in the replacement value;
* `String.prototype.split` with a character-class regex keeps empty pieces;
* relational comparison against `undefined` is always false.
-/

namespace OneClick

/-- JS-style split on a character predicate: keeps empty pieces, and the
result is never the empty list (`"".split` is `[""]`). -/
def splitOnPred (p : Char → Bool) : List Char → List (List Char)
  | [] => [[]]
  | c :: t =>
    let r := splitOnPred p t
    if p c then [] :: r
    else (c :: r.headD []) :: r.tail

/-- Does `pat` occur at the start of `s`? (empty `pat` always matches). -/
def startsWithList : List Char → List Char → Bool
  | [], _ => true
  | _ :: _, [] => false
  | p :: ps, c :: cs => p == c && startsWithList ps cs

/-- JS `String.prototype.includes`: substring occurrence. -/
def hasSubList : List Char → List Char → Bool
  | [], pat => startsWithList pat []
  | c :: t, pat => startsWithList pat (c :: t) || hasSubList t pat

/-- String wrapper for substring occurrence. -/
def hasSubStr (s pat : String) : Bool := hasSubList s.data pat.data

/-- Index of the first occurrence of `pat` in `s`, if any. -/
def findSubIdx (pat : List Char) : List Char → Option Nat
  | [] => if startsWithList pat [] then some 0 else none
  | c :: t =>
    if startsWithList pat (c :: t) then some 0
    else (findSubIdx pat t).map (· + 1)

/-- ECMAScript `StrWhiteSpaceChar` (whitespace and line terminators
skipped by `parseInt`). -/
def isJsSpace (c : Char) : Bool :=
  c.toNat = 32 || c.toNat = 9 || c.toNat = 10 || c.toNat = 11 ||
  c.toNat = 12 || c.toNat = 13 || c.toNat = 160 || c.toNat = 0x1680 ||
  (0x2000 ≤ c.toNat && c.toNat ≤ 0x200A) || c.toNat = 0x2028 ||
  c.toNat = 0x2029 || c.toNat = 0x202F || c.toNat = 0x205F ||
  c.toNat = 0x3000 || c.toNat = 0xFEFF

/-- Value of a decimal digit character. -/
def decVal (c : Char) : Option Nat :=
  if 48 ≤ c.toNat ∧ c.toNat ≤ 57 then some (c.toNat - 48) else none

/-- Value of a hexadecimal digit character. -/
def hexVal (c : Char) : Option Nat :=
  if 48 ≤ c.toNat ∧ c.toNat ≤ 57 then some (c.toNat - 48)
  else if 97 ≤ c.toNat ∧ c.toNat ≤ 102 then some (c.toNat - 87)
  else if 65 ≤ c.toNat ∧ c.toNat ≤ 70 then some (c.toNat - 55)
  else none

/-- Accumulate the longest prefix of digits; `none` when no digit was seen. -/
def digitsAux (dv : Char → Option Nat) (radix : Nat) :
    List Char → Option Nat → Option Nat
  | [], acc => acc
  | c :: t, acc =>
    match dv c with
    | some d => digitsAux dv radix t (some (acc.getD 0 * radix + d))
    | none => acc

/-- `parseInt` after the optional sign: `0x`/`0X` switches to hexadecimal. -/
def parseIntNoSign : List Char → Option Nat
  | '0' :: 'x' :: rest => digitsAux hexVal 16 rest none
  | '0' :: 'X' :: rest => digitsAux hexVal 16 rest none
  | cs => digitsAux decVal 10 cs none

/-- JS `parseInt(s)` with no radix argument; `none` models NaN. -/
def parseIntJS (cs : List Char) : Option Int :=
  match cs.dropWhile isJsSpace with
  | '-' :: rest => (parseIntNoSign rest).map (fun n => -(n : Int))
  | '+' :: rest => (parseIntNoSign rest).map (fun n => (n : Int))
  | t => (parseIntNoSign t).map (fun n => (n : Int))

/-- JS code-unit-wise string `<`. -/
def jsStrLt : List Char → List Char → Bool
  | [], [] => false
  | [], _ :: _ => true
  | _ :: _, [] => false
  | a :: as, b :: bs => if a < b then true else if b < a then false else jsStrLt as bs

/-- Decimal digits of a natural number (fuel-based so the kernel can reduce it). -/
def natToCharsAux : Nat → Nat → List Char
  | 0, _ => []
  | fuel + 1, n =>
    if n < 10 then [Char.ofNat (48 + n)]
    else natToCharsAux fuel (n / 10) ++ [Char.ofNat (48 + n % 10)]

/-- JS `String(n)` for an integer value. -/
def intToChars (k : Int) : List Char :=
  if k < 0 then '-' :: natToCharsAux (k.natAbs + 1) k.natAbs
  else natToCharsAux (k.natAbs + 1) k.natAbs

/-- A version-token slot as the comparator stores it: `parseInt(p) || p`
keeps the parsed number when it is truthy (nonzero) and otherwise keeps the
original token string. -/
inductive JSPart where
  | num (k : Int)
  | str (s : List Char)
deriving Repr, DecidableEq

/-- `parseInt(p) || p`: NaN and `0` (and `-0`) are falsy, so the token string
survives in those cases. -/
def toPart (p : List Char) : JSPart :=
  match parseIntJS p with
  | some k => if k = 0 then .str p else .num k
  | none => .str p

/-- `parts[i] || 0`: a missing slot (`undefined`) and the empty string are
falsy and become the number `0`. -/
def jsDefault : Option JSPart → JSPart
  | none => .num 0
  | some (.num k) => if k = 0 then .num 0 else .num k
  | some (.str s) => if s = [] then .num 0 else .str s

/-- JS `String(x)` coercion of a part. -/
def jsString : JSPart → List Char
  | .num k => intToChars k
  | .str s => s

/-- One position of the comparator loop: numbers compare numerically, any
other pairing falls back to JS string comparison after `String()` coercion. -/
def cmpPart (p1 p2 : JSPart) : Int :=
  match p1, p2 with
  | .num a, .num b => if a > b then 1 else if a < b then -1 else 0
  | q1, q2 =>
    let s1 := jsString q1
    let s2 := jsString q2
    if jsStrLt s2 s1 then 1 else if jsStrLt s1 s2 then -1 else 0

/-- The comparator's indexed loop over `0 ≤ i < maxLen`, returning the first
nonzero position result. -/
def cmpLoop (parts1 parts2 : List JSPart) : Nat → Nat → Int
  | _, 0 => 0
  | i, n + 1 =>
    let c := cmpPart (jsDefault (parts1.get? i)) (jsDefault (parts2.get? i))
    if c = 0 then cmpLoop parts1 parts2 (i + 1) n else c

/-- The split delimiter class `[.-]`. -/
def isSep (c : Char) : Bool := c == '.' || c == '-'

/-- `v.replace(/^v/, '')`: drop one leading literal `v`. -/
def stripV : List Char → List Char
  | 'v' :: t => t
  | l => l

/-- The comparator's token list for one version string. -/
def versionParts (v : String) : List JSPart :=
  (splitOnPred isSep (stripV v.data)).map toPart

/-- `compareVersions` from `scripts/check_updates.js` (identical in the
advanced checker): equal strings short-circuit to `0`; otherwise strip a
leading `v`, split on `.`/`-`, map `parseInt(p) || p`, and compare position
by position up to the longer length with `parts[i] || 0` defaults. -/
def compareVersions (v1 v2 : String) : Int :=
  if v1 = v2 then 0
  else
    let parts1 := versionParts v1
    let parts2 := versionParts v2
    cmpLoop parts1 parts2 0 (max parts1.length parts2.length)

/-- `determineUpdateType`'s per-version integer list:
`v.replace(/^v/, '').split(/[.-]/).map(p => parseInt(p) || 0)`. -/
def numParts (v : String) : List Int :=
  (splitOnPred isSep (stripV v.data)).map fun p =>
    match parseIntJS p with
    | some k => k
    | none => 0

/-- JS `a > b` where each operand may be `undefined` (a missing array slot):
a comparison involving `undefined` is `false`. -/
def jsGtOpt : Option Int → Option Int → Bool
  | some a, some b => decide (b < a)
  | _, _ => false

/-- `determineUpdateType(current, latest)`: compare the first three integer
positions with JS `>` (false whenever a side is missing). -/
def determineUpdateType (current latest : String) : String :=
  let currentParts := numParts current
  let latestParts := numParts latest
  if jsGtOpt (latestParts.get? 0) (currentParts.get? 0) then "major"
  else if jsGtOpt (latestParts.get? 1) (currentParts.get? 1) then "minor"
  else if jsGtOpt (latestParts.get? 2) (currentParts.get? 2) then "patch"
  else "other"

/-- The update verdict object; `updateType` is only set on the
`hasUpdate: true` branch. -/
structure UpdateVerdict where
  hasUpdate : Bool
  currentVersion : String
  latestVersion : String
  updateType : Option String
deriving Repr, DecidableEq

/-- `detectUpdate(currentVersion, latestVersion)`: `null`/`undefined` and the
empty string are falsy and yield `null`; otherwise the comparator decides and
the classifier runs only on the update branch. (The `try`/`catch` around the
comparator is dead: the comparator is total.) -/
def detectUpdate (currentVersion : String) (latestVersion : Option String) :
    Option UpdateVerdict :=
  match latestVersion with
  | none => none
  | some lv =>
    if lv = "" then none
    else
      let comparison := compareVersions lv currentVersion
      if comparison > 0 then
        some ⟨true, currentVersion, lv, some (determineUpdateType currentVersion lv)⟩
      else
        some ⟨false, currentVersion, lv, none⟩

/-- Parsed Docker image reference (`namespace` is a Lean keyword, stored as
`nspace`). -/
structure DockerImage where
  full : String
  registry : String
  nspace : String
  repository : String
  fullName : String
  currentVersion : String
  isOfficial : Bool
deriving Repr, DecidableEq

/-- Field assembly for a two-part (`name:version`) reference: split the name
on `/` into registry/namespace/repository with `docker.io`/`library`
defaults. -/
def buildImage (full : String) (imageName version : List Char) : DockerImage :=
  let imageParts := splitOnPred (fun c => c == '/') imageName
  let fields : String × String × String :=
    match imageParts with
    | [r] => ("docker.io", "library", String.mk r)
    | [ns, rp] => ("docker.io", String.mk ns, String.mk rp)
    | reg :: ns :: rest =>
      (String.mk reg, String.mk ns,
        String.mk (List.intercalate ['/'] rest))
    | [] => ("docker.io", "library", String.mk imageName)
  { full := full
    registry := fields.1
    nspace := fields.2.1
    repository := fields.2.2
    fullName := fields.2.1 ++ "/" ++ fields.2.2
    currentVersion := String.mk version
    isOfficial := fields.2.1 == "library" }

/-- `parseDockerImage(imageRef)`: falsy (empty) input and input containing
the `$$cap_` variable prefix are rejected; the reference must split on `:`
into exactly two pieces. -/
def parseDockerImage (imageRef : String) : Option DockerImage :=
  if imageRef = "" then none
  else if hasSubStr imageRef "$$cap_" then none
  else
    match splitOnPred (fun c => c == ':') imageRef.data with
    | [imageName, version] => some (buildImage imageRef imageName version)
    | _ => none

/-- ECMAScript `GetSubstitution` for a string-pattern `replace` call (no
capture groups): `$$` is a literal dollar, `$&` the match, a dollar before
a backquote the text before the match, `$'` the text after it, and any
other `$`-sequence is literal. -/
def expandRepl (matched before after : List Char) : List Char → List Char
  | [] => []
  | '$' :: '$' :: rest => '$' :: expandRepl matched before after rest
  | '$' :: '&' :: rest => matched ++ expandRepl matched before after rest
  | '$' :: c :: rest =>
    if c = Char.ofNat 96 then before ++ expandRepl matched before after rest
    else if c = Char.ofNat 39 then after ++ expandRepl matched before after rest
    else '$' :: expandRepl matched before after (c :: rest)
  | c :: rest => c :: expandRepl matched before after rest

/-- JS `s.replace(pat, repl)` with a string pattern: splice the expanded
replacement in place of the first occurrence only. -/
def jsReplaceList (s pat repl : List Char) : List Char :=
  match findSubIdx pat s with
  | none => s
  | some i =>
    s.take i ++ expandRepl pat (s.take i) (s.drop (i + pat.length)) repl ++
      s.drop (i + pat.length)

/-- The resolver loop of `extractAppConfig`: fold `String.replace` over the
variable map in iteration order. -/
def resolveVars (raw : String) (bindings : List (String × String)) : String :=
  bindings.foldl (fun acc b => String.mk (jsReplaceList acc.data b.1.data b.2.data)) raw

/-- The image string after the resolver has run: substitution is attempted
only when the raw string contains the `$$` placeholder marker. -/
def resolvedOf (img : String) (bindings : List (String × String)) : String :=
  if hasSubStr img "$$" then resolveVars img bindings else img

/-- One entry of `extractAppConfig`'s `services` output. -/
structure ServiceEntry where
  serviceName : String
  originalImage : String
  resolvedImage : String
  hasVariables : Bool
  parsed : DockerImage
deriving Repr, DecidableEq

/-- Per-service body of `extractAppConfig`'s loop: skip falsy images, keep
only the main app service, resolve template variables, skip services whose
resolution still contains `$$`, and parse the result. -/
def processService (appBaseName : String) (bindings : List (String × String))
    (serviceName image : String) : Option ServiceEntry :=
  if image = "" then none
  else if serviceName ≠ "$$cap_appname" ∧
      serviceName ≠ "$$cap_appname-" ++ appBaseName then none
  else
    let hasVariables := hasSubStr image "$$"
    let resolvedImage := if hasVariables then resolveVars image bindings else image
    if hasVariables ∧ hasSubStr resolvedImage "$$" then none
    else
      match parseDockerImage resolvedImage with
      | none => none
      | some parsed => some ⟨serviceName, image, resolvedImage, hasVariables, parsed⟩

/-- `extractAppConfig`'s `services` list over a document's service map. -/
def extractServices (appBaseName : String) (bindings : List (String × String))
    (services : List (String × String)) : List ServiceEntry :=
  services.filterMap fun sv => processService appBaseName bindings sv.1 sv.2

/-! ## Definitions following the specification's words

These definitions are written from the natural-language specification, to be
compared with the embedding of the source above. -/

/-- Spec §4.2 wording: a token is numeric only when it is purely numeric
(nonempty and all decimal digits). -/
def isPureNumeric (s : List Char) : Bool :=
  s ≠ [] && s.all fun c => 48 ≤ c.toNat && c.toNat ≤ 57

/-- Numeric value of a purely numeric token. -/
def pureNumVal (s : List Char) : Nat :=
  s.foldl (fun acc c => acc * 10 + (c.toNat - 48)) 0

/-- Spec §4.2 token classification: integer conversion succeeds exactly for
purely numeric tokens; every other token is kept as a string token. -/
inductive SpecToken where
  | num (n : Nat)
  | str (s : List Char)
deriving Repr, DecidableEq

/-- Classify one token the way §4.2 describes. -/
def specTok (s : List Char) : SpecToken :=
  if isPureNumeric s then .num (pureNumVal s) else .str s

/-- §4.2 per-position comparison: numeric vs numeric numerically, and string
comparison whenever either side is non-numeric, a numeric token comparing
as its string form. -/
def specCmpTok (t1 t2 : SpecToken) : Int :=
  match t1, t2 with
  | .num a, .num b => if b < a then 1 else if a < b then -1 else 0
  | u1, u2 =>
    let s1 := match u1 with | .num n => intToChars (n : Int) | .str s => s
    let s2 := match u2 with | .num n => intToChars (n : Int) | .str s => s
    if jsStrLt s2 s1 then 1 else if jsStrLt s1 s2 then -1 else 0

/-- First nonzero entry of a list of position results. -/
def firstNonzero : List Int → Int
  | [] => 0
  | c :: t => if c = 0 then firstNonzero t else c

/-- Pad a token list with numeric-`0` tokens up to length `n`. -/
def padSpec (n : Nat) (l : List SpecToken) : List SpecToken :=
  l ++ List.replicate (n - l.length) (.num 0)

/-- The §4.2 comparison algorithm exactly as the specification states it:
strip one leading `v`, split on `.`/`-`, keep non-purely-numeric tokens as
strings, treat missing trailing tokens as `0`, compare position by position,
first unequal position decides. -/
def specCompareVersions (a b : String) : Int :=
  if a = b then 0
  else
    let t1 := (splitOnPred isSep (stripV a.data)).map specTok
    let t2 := (splitOnPred isSep (stripV b.data)).map specTok
    let n := max t1.length t2.length
    firstNonzero (List.zipWith specCmpTok (padSpec n t1) (padSpec n t2))

/-- Amended token classification: JS `parseInt` leading-prefix conversion,
with the empty token counting as numeric `0` and a token whose conversion is
NaN or `0` kept as a string token. -/
def amendedTok (s : List Char) : JSPart :=
  if s = [] then .num 0 else toPart s

/-- Pad a part list with numeric-`0` parts up to length `n`. -/
def padPart (n : Nat) (l : List JSPart) : List JSPart :=
  l ++ List.replicate (n - l.length) (.num 0)

/-- The amended §4.2 algorithm: like the spec's description but with
`parseInt`-style token conversion, empty tokens and missing trailing tokens
counting as numeric `0`, and numbers rendered in decimal for mixed-position
string comparison. -/
def amendedCompareVersions (a b : String) : Int :=
  if a = b then 0
  else
    let t1 := (splitOnPred isSep (stripV a.data)).map amendedTok
    let t2 := (splitOnPred isSep (stripV b.data)).map amendedTok
    let n := max t1.length t2.length
    firstNonzero (List.zipWith cmpPart (padPart n t1) (padPart n t2))

/-- C2's claim-side position value: integer of the token when purely
numeric, defaulting to `0` when the position is missing or non-numeric. -/
def claimPos (v : String) (i : Nat) : Int :=
  match (splitOnPred isSep (stripV v.data)).get? i with
  | some p => if isPureNumeric p then (pureNumVal p : Int) else 0
  | none => 0

/-- C2's classifier exactly as the claim states it. -/
def claimClassify (current latest : String) : String :=
  if claimPos current 0 < claimPos latest 0 then "major"
  else if claimPos current 1 < claimPos latest 1 then "minor"
  else if claimPos current 2 < claimPos latest 2 then "patch"
  else "other"

/-- Amended C2 position test: the strictly-greater rule fires only when the
position exists on both sides. -/
def bothPresentGt (lat cur : List Int) (i : Nat) : Bool :=
  if h : i < lat.length ∧ i < cur.length then
    decide (cur.get ⟨i, h.2⟩ < lat.get ⟨i, h.1⟩)
  else false

/-- The amended C2 classifier: `parseInt(p) || 0` conversion, and each of
the first three positions compared only when present on both sides. -/
def classifyAmended (current latest : String) : String :=
  let cur := numParts current
  let lat := numParts latest
  if bothPresentGt lat cur 0 then "major"
  else if bothPresentGt lat cur 1 then "minor"
  else if bothPresentGt lat cur 2 then "patch"
  else "other"

/-- C3's claim-side replacement: every occurrence of the pattern replaced,
left to right, replacement text never re-scanned (fuel-based; called with
fuel `s.length`, enough since each step consumes at least one character). -/
def replaceAllScan (pat repl : List Char) : Nat → List Char → List Char
  | 0, s => s
  | fuel + 1, s =>
    if pat ≠ [] ∧ startsWithList pat s then
      repl ++ replaceAllScan pat repl fuel (s.drop pat.length)
    else
      match s with
      | [] => []
      | c :: t => c :: replaceAllScan pat repl fuel t

/-- C3's resolver as the claim states it: every binding id replaced globally
(all of its occurrences), in the mapping's iteration order. -/
def resolveVarsGlobal (raw : String) (bindings : List (String × String)) : String :=
  bindings.foldl
    (fun acc b => String.mk (replaceAllScan b.1.data b.2.data acc.data.length acc.data))
    raw

/-- Replace the first occurrence of `pat`, by direct scan: `acc` holds the
(reversed) text already passed over. -/
def replFirstAux (pat repl : List Char) : List Char → List Char → List Char
  | acc, [] =>
    if startsWithList pat [] then
      acc.reverse ++ expandRepl pat acc.reverse [] repl
    else acc.reverse
  | acc, c :: t =>
    if startsWithList pat (c :: t) then
      acc.reverse ++
        expandRepl pat acc.reverse ((c :: t).drop pat.length) repl ++
        (c :: t).drop pat.length
    else replFirstAux pat repl (c :: acc) t

/-- Amended C3 single-id step: the first occurrence of the id replaced (JS
string-replacement semantics for the value), later text left untouched. -/
def replaceFirstScan (s pat repl : List Char) : List Char :=
  replFirstAux pat repl [] s

/-- The amended C3 resolver: each id's first occurrence replaced, in the
mapping's iteration order. -/
def resolveVarsFirst (raw : String) (bindings : List (String × String)) : String :=
  bindings.foldl
    (fun acc b => String.mk (replaceFirstScan acc.data b.1.data b.2.data))
    raw

/-! ## Comparator lemmas -/

lemma cmpPart_range (p q : JSPart) :
    cmpPart p q = -1 ∨ cmpPart p q = 0 ∨ cmpPart p q = 1 := by
  cases p <;> cases q <;> simp only [cmpPart] <;> split_ifs <;> simp

lemma cmpLoop_range (l1 l2 : List JSPart) :
    ∀ n i, cmpLoop l1 l2 i n = -1 ∨ cmpLoop l1 l2 i n = 0 ∨ cmpLoop l1 l2 i n = 1 := by
  intro n
  induction n with
  | zero => intro i; simp [cmpLoop]
  | succ m ih =>
    intro i
    simp only [cmpLoop]
    split_ifs with h
    · exact ih (i + 1)
    · exact cmpPart_range _ _

lemma jsStrLt_asymm : ∀ x y : List Char, jsStrLt x y = true → jsStrLt y x = false := by
  intro x
  induction x with
  | nil => intro y h; cases y <;> simp [jsStrLt] at h ⊢
  | cons a as ih =>
    intro y h
    cases y with
    | nil => simp [jsStrLt] at h
    | cons b bs =>
      simp only [jsStrLt] at h ⊢
      by_cases hab : a < b
      · have hba : ¬ b < a := lt_asymm hab
        simp [hab, hba]
      · by_cases hba : b < a
        · simp [hab, hba] at h
        · simp [hab, hba] at h ⊢
          exact ih bs h

lemma strCmp_neg (s1 s2 : List Char) :
    (if jsStrLt s2 s1 then (1 : Int) else if jsStrLt s1 s2 then -1 else 0) =
      -(if jsStrLt s1 s2 then (1 : Int) else if jsStrLt s2 s1 then -1 else 0) := by
  by_cases h1 : jsStrLt s2 s1 = true
  · have h2 := jsStrLt_asymm _ _ h1
    simp [h1, h2]
  · by_cases h2 : jsStrLt s1 s2 = true
    · simp [h1, h2]
    · simp [h1, h2]

lemma cmpPart_neg (p q : JSPart) : cmpPart p q = -(cmpPart q p) := by
  cases p with
  | num a =>
    cases q with
    | num b => simp only [cmpPart]; split_ifs <;> omega
    | str s => simpa only [cmpPart] using strCmp_neg (intToChars a) s
  | str s =>
    cases q with
    | num b => simpa only [cmpPart] using strCmp_neg s (intToChars b)
    | str t => simpa only [cmpPart] using strCmp_neg s t

lemma cmpLoop_neg (l1 l2 : List JSPart) :
    ∀ n i, cmpLoop l1 l2 i n = -(cmpLoop l2 l1 i n) := by
  intro n
  induction n with
  | zero => intro i; simp [cmpLoop]
  | succ m ih =>
    intro i
    simp only [cmpLoop]
    have hc := cmpPart_neg (jsDefault (l1.get? i)) (jsDefault (l2.get? i))
    by_cases h : cmpPart (jsDefault (l1.get? i)) (jsDefault (l2.get? i)) = 0
    · have h2 : cmpPart (jsDefault (l2.get? i)) (jsDefault (l1.get? i)) = 0 := by omega
      simp only [h, h2, if_pos rfl, if_true]
      exact ih (i + 1)
    · have h2 : ¬ cmpPart (jsDefault (l2.get? i)) (jsDefault (l1.get? i)) = 0 := by omega
      simp only [if_neg h, if_neg h2]
      exact hc

lemma compareVersions_mem (a b : String) :
    compareVersions a b = -1 ∨ compareVersions a b = 0 ∨ compareVersions a b = 1 := by
  unfold compareVersions
  split_ifs with h
  · simp
  · exact cmpLoop_range _ _ _ _

/-- C7: for every pair of strings, `compareVersions` terminates (it is a
total Lean function) and returns a value in `{-1, 0, 1}`; there is no
failure outcome for string inputs. -/
theorem compareVersions_range (a b : String) :
    compareVersions a b = -1 ∨ compareVersions a b = 0 ∨ compareVersions a b = 1 :=
  compareVersions_mem a b

/-- C8: the comparator is antisymmetric:
`compareVersions a b = -compareVersions b a` for all strings. -/
theorem compareVersions_antisymm (a b : String) :
    compareVersions a b = -(compareVersions b a) := by
  by_cases h : a = b
  · subst h; simp [compareVersions]
  · have h' : ¬ b = a := fun e => h e.symm
    simp only [compareVersions, if_neg h, if_neg h']
    rw [Nat.max_comm]
    exact cmpLoop_neg _ _ _ _

/-! ## Equivalence of the comparator loop with the amended specification -/

/-- Normalisation applied by `parts[i] || 0` to a present slot. -/
def normPart (p : JSPart) : JSPart := jsDefault (some p)

lemma toPart_num_ne_zero {s : List Char} {k : Int} (h : toPart s = .num k) : k ≠ 0 := by
  unfold toPart at h
  cases h' : parseIntJS s with
  | none => rw [h'] at h; simp at h
  | some k' =>
    rw [h'] at h
    by_cases hz : k' = 0
    · simp [hz] at h
    · simp [hz] at h
      omega

lemma toPart_str_eq {s t : List Char} (h : toPart s = .str t) : t = s := by
  unfold toPart at h
  cases h' : parseIntJS s with
  | none => rw [h'] at h; simp at h; exact h.symm
  | some k' =>
    rw [h'] at h
    by_cases hz : k' = 0
    · simp [hz] at h; exact h.symm
    · simp [hz] at h

lemma amendedTok_eq_norm (s : List Char) : amendedTok s = normPart (toPart s) := by
  by_cases h : s = []
  · subst h; decide
  · unfold amendedTok normPart
    rw [if_neg h]
    cases htp : toPart s with
    | num k =>
      have := toPart_num_ne_zero htp
      simp [jsDefault, this]
    | str t =>
      have ht := toPart_str_eq htp
      subst ht
      simp [jsDefault, h]

lemma jsDefault_none_eq : jsDefault none = .num 0 := rfl

lemma padPart_nil_succ (m : Nat) :
    padPart (m + 1) ([] : List JSPart) = .num 0 :: padPart m [] := by
  simp [padPart, List.replicate_succ]

lemma padPart_cons (m : Nat) (a : JSPart) (l : List JSPart) :
    padPart (m + 1) (a :: l) = a :: padPart m l := by
  simp [padPart, Nat.succ_sub_succ]

lemma get?_one_drop (l : List JSPart) (i : Nat) : (l.drop 1).get? i = l.get? (i + 1) := by
  cases l <;> simp

lemma cmpLoop_shift (l1 l2 : List JSPart) :
    ∀ n i, cmpLoop l1 l2 (i + 1) n = cmpLoop (l1.drop 1) (l2.drop 1) i n := by
  intro n
  induction n with
  | zero => intro i; rfl
  | succ m ih =>
    intro i
    simp only [cmpLoop, get?_one_drop]
    rw [ih (i + 1)]

lemma cmpLoop_eq_zip :
    ∀ (n : Nat) (l1 l2 : List JSPart), n = max l1.length l2.length →
      cmpLoop l1 l2 0 n =
        firstNonzero (List.zipWith cmpPart (padPart n (l1.map normPart))
          (padPart n (l2.map normPart))) := by
  intro n
  induction n with
  | zero =>
    intro l1 l2 hn
    have h1 : l1 = [] := List.eq_nil_of_length_eq_zero (by omega)
    have h2 : l2 = [] := List.eq_nil_of_length_eq_zero (by omega)
    subst h1; subst h2
    simp [cmpLoop, padPart, firstNonzero]
  | succ m ih =>
    intro l1 l2 hn
    have hshift := cmpLoop_shift l1 l2 m 0
    cases l1 with
    | nil =>
      cases l2 with
      | nil => simp at hn
      | cons b t2 =>
        have hl : m = max ([] : List JSPart).length t2.length := by
          simp at hn ⊢; omega
        simp only [cmpLoop, List.get?_nil, List.map_cons, List.map_nil,
          padPart_nil_succ, padPart_cons, List.zipWith_cons_cons, firstNonzero]
        have hhead : jsDefault (some b) = normPart b := rfl
        rw [List.get?_cons_zero, hhead, hshift]
        simp only [List.drop_nil, List.drop_one, List.tail_cons]
        rw [ih [] t2 hl]
        simp [jsDefault_none_eq, padPart, List.length_map]
    | cons a t1 =>
      cases l2 with
      | nil =>
        have hl : m = max t1.length ([] : List JSPart).length := by
          simp at hn ⊢; omega
        simp only [cmpLoop, List.get?_nil, List.map_cons, List.map_nil,
          padPart_nil_succ, padPart_cons, List.zipWith_cons_cons, firstNonzero]
        have hhead : jsDefault (some a) = normPart a := rfl
        rw [List.get?_cons_zero, hhead, hshift]
        simp only [List.drop_nil, List.drop_one, List.tail_cons]
        rw [ih t1 [] hl]
        simp [jsDefault_none_eq, padPart, List.length_map]
      | cons b t2 =>
        have hl : m = max t1.length t2.length := by
          simp at hn ⊢; omega
        simp only [cmpLoop, List.map_cons, padPart_cons,
          List.zipWith_cons_cons, firstNonzero]
        have hh1 : jsDefault ((a :: t1).get? 0) = normPart a := rfl
        have hh2 : jsDefault ((b :: t2).get? 0) = normPart b := rfl
        rw [hh1, hh2, hshift]
        simp only [List.drop_one, List.tail_cons]
        rw [ih t1 t2 hl]
        simp [padPart, List.length_cons, List.length_map, Nat.succ_sub_succ, List.append_eq]

/-- C1 (amended): `compareVersions` implements the §4.2 algorithm amended to
JS `parseInt` token conversion — integer conversion parses a leading integer
prefix; a token converting to NaN or `0` is kept as a string token; empty
tokens and missing trailing tokens count as numeric `0`; positions compare
numerically when both sides are numeric and as strings otherwise, the first
unequal position deciding, with `0` when all positions agree. -/
theorem compareVersions_eq_amended (a b : String) :
    compareVersions a b = amendedCompareVersions a b := by
  by_cases h : a = b
  · subst h; simp [compareVersions, amendedCompareVersions]
  · simp only [compareVersions, amendedCompareVersions, versionParts, if_neg h]
    have hmap1 : (splitOnPred isSep (stripV a.data)).map amendedTok =
        ((splitOnPred isSep (stripV a.data)).map toPart).map normPart := by
      rw [List.map_map]
      exact List.map_congr_left fun x _ => amendedTok_eq_norm x
    have hmap2 : (splitOnPred isSep (stripV b.data)).map amendedTok =
        ((splitOnPred isSep (stripV b.data)).map toPart).map normPart := by
      rw [List.map_map]
      exact List.map_congr_left fun x _ => amendedTok_eq_norm x
    rw [hmap1, hmap2]
    have hlen := cmpLoop_eq_zip
      (max ((splitOnPred isSep (stripV a.data)).map toPart).length
        ((splitOnPred isSep (stripV b.data)).map toPart).length)
      ((splitOnPred isSep (stripV a.data)).map toPart)
      ((splitOnPred isSep (stripV b.data)).map toPart) rfl
    rw [hlen]
    congr 2 <;> simp [List.length_map]

/-! ## Classifier equivalence with the amended specification -/

lemma jsGtOpt_eq_bothPresentGt (lat cur : List Int) (i : Nat) :
    jsGtOpt (lat.get? i) (cur.get? i) = bothPresentGt lat cur i := by
  unfold bothPresentGt
  by_cases h : i < lat.length ∧ i < cur.length
  · rw [dif_pos h, List.get?_eq_get h.1, List.get?_eq_get h.2]
    rfl
  · rw [dif_neg h]
    rcases Nat.lt_or_ge i lat.length with hl | hl
    · have hc : cur.length ≤ i := by
        rcases Nat.lt_or_ge i cur.length with hc' | hc'
        · exact absurd ⟨hl, hc'⟩ h
        · exact hc'
      rw [List.get?_eq_none.2 hc]
      cases lat.get? i <;> rfl
    · rw [List.get?_eq_none.2 hl]
      rfl

/-- C2 (amended): the classifier strips a leading `v`, splits on `.`/`-`,
converts each token with `parseInt(p) || 0` (leading-integer-prefix parsing,
`0` for NaN), and applies the major/minor/patch rules at positions 0, 1, 2,
a rule firing only when the position is present on both sides (a comparison
against a missing position is false). -/
theorem determineUpdateType_eq_amended (current latest : String) :
    determineUpdateType current latest = classifyAmended current latest := by
  simp only [determineUpdateType, classifyAmended, jsGtOpt_eq_bothPresentGt]

/-! ## Replacement-scan equivalence -/

lemma replFirstAux_spec (pat repl : List Char) :
    ∀ s acc, replFirstAux pat repl acc s =
      match findSubIdx pat s with
      | none => acc.reverse ++ s
      | some i =>
          acc.reverse ++ s.take i ++
            expandRepl pat (acc.reverse ++ s.take i) (s.drop (i + pat.length)) repl ++
            s.drop (i + pat.length) := by
  intro s
  induction s with
  | nil =>
    intro acc
    by_cases h : startsWithList pat [] = true
    · simp [replFirstAux, findSubIdx, h]
    · simp [replFirstAux, findSubIdx, h]
  | cons c t ih =>
    intro acc
    by_cases h : startsWithList pat (c :: t) = true
    · simp [replFirstAux, findSubIdx, h]
    · simp only [replFirstAux, findSubIdx, h, if_false, Bool.false_eq_true]
      rw [ih (c :: acc)]
      cases hf : findSubIdx pat t with
      | none =>
        simp [List.reverse_cons, List.append_assoc]
      | some i =>
        simp only [Option.map_some']
        have harith : i + 1 + pat.length = (i + pat.length) + 1 := by omega
        rw [harith]
        simp [List.reverse_cons, List.take_succ_cons, List.drop_succ_cons,
          List.append_assoc]

lemma jsReplaceList_eq_scan (s pat repl : List Char) :
    jsReplaceList s pat repl = replaceFirstScan s pat repl := by
  unfold jsReplaceList replaceFirstScan
  rw [replFirstAux_spec]
  cases hf : findSubIdx pat s with
  | none => simp
  | some i => simp

lemma resolveVars_eq_first (raw : String) (bindings : List (String × String)) :
    resolveVars raw bindings = resolveVarsFirst raw bindings := by
  unfold resolveVars resolveVarsFirst
  induction bindings generalizing raw with
  | nil => rfl
  | cons b t ih =>
    simp only [List.foldl_cons]
    rw [jsReplaceList_eq_scan]
    exact ih _

/-- C3 (amended): for every raw image string containing the placeholder
marker and every binding map, the resolver substitutes the FIRST occurrence
of each known binding id with its default value (JS string-replacement
semantics, `$`-escapes in the value included), proceeding through the ids
in the mapping's iteration order; other occurrences of an id are left
untouched by that id's step. -/
theorem resolveVars_first_occurrence (raw : String)
    (bindings : List (String × String)) (h : hasSubStr raw "$$" = true) :
    resolveVars raw bindings = resolveVarsFirst raw bindings :=
  resolveVars_eq_first raw bindings

/-- Witness for `resolveVars_first_occurrence` at a concrete input. -/
theorem resolveVars_first_occurrence_witness :
    hasSubStr "wordpress:$$cap_wp_version" "$$" = true ∧
      resolveVars "wordpress:$$cap_wp_version" [("$$cap_wp_version", "6.7.0")] =
        resolveVarsFirst "wordpress:$$cap_wp_version" [("$$cap_wp_version", "6.7.0")] :=
  ⟨by decide, resolveVars_first_occurrence _ _ (by decide)⟩

/-! ## Split lemmas for the image-reference parser -/

lemma splitOnPred_ne_nil (p : Char → Bool) (l : List Char) : splitOnPred p l ≠ [] := by
  cases l with
  | nil => simp [splitOnPred]
  | cons c t =>
    simp only [splitOnPred]
    split_ifs <;> simp

lemma length_splitOnPred (p : Char → Bool) (l : List Char) :
    (splitOnPred p l).length = l.countP p + 1 := by
  induction l with
  | nil => simp [splitOnPred]
  | cons c t ih =>
    simp only [splitOnPred]
    by_cases h : p c
    · simp [h, List.countP_cons, ih]
    · have hne := splitOnPred_ne_nil p t
      cases hr : splitOnPred p t with
      | nil => exact absurd hr hne
      | cons x xs =>
        rw [hr] at ih
        simp only [List.length_cons] at ih
        simp [h, List.countP_cons]
        omega

lemma splitOnPred_singleton {p : Char → Bool} :
    ∀ {l x : List Char}, splitOnPred p l = [x] → l = x := by
  intro l
  induction l with
  | nil =>
    intro x h
    simp [splitOnPred] at h
    exact h.symm
  | cons c t ih =>
    intro x h
    simp only [splitOnPred] at h
    by_cases hc : p c
    · rw [if_pos hc] at h
      cases h' : splitOnPred p t with
      | nil => exact absurd h' (splitOnPred_ne_nil p t)
      | cons y ys => rw [h'] at h; simp at h
    · rw [if_neg hc] at h
      cases h' : splitOnPred p t with
      | nil => exact absurd h' (splitOnPred_ne_nil p t)
      | cons y ys =>
        rw [h'] at h
        simp only [List.headD_cons, List.tail_cons] at h
        obtain ⟨hx, hys⟩ := List.cons.inj h
        subst hys
        have := ih (show splitOnPred p t = [y] by rw [h'])
        subst this
        exact hx.symm ▸ rfl

lemma splitOnPred_pair {p : Char → Bool} :
    ∀ {l a b : List Char}, splitOnPred p l = [a, b] →
      ∃ c, p c = true ∧ l = a ++ c :: b := by
  intro l
  induction l with
  | nil => intro a b h; simp [splitOnPred] at h
  | cons c t ih =>
    intro a b h
    simp only [splitOnPred] at h
    by_cases hc : p c
    · rw [if_pos hc] at h
      obtain ⟨ha, hr⟩ := List.cons.inj h
      have ht := splitOnPred_singleton (p := p) hr
      exact ⟨c, hc, by rw [← ha, ht]; rfl⟩
    · rw [if_neg hc] at h
      cases h' : splitOnPred p t with
      | nil => exact absurd h' (splitOnPred_ne_nil p t)
      | cons y ys =>
        rw [h'] at h
        simp only [List.headD_cons, List.tail_cons] at h
        obtain ⟨ha, hys⟩ := List.cons.inj h
        subst hys
        obtain ⟨d, hd, ht⟩ := ih (show splitOnPred p t = [y, b] by rw [h'])
        refine ⟨d, hd, ?_⟩
        rw [← ha, ht]
        rfl

/-- C4 (amended): `parseDockerImage` returns `Invalid` (none) exactly when
the input contains the `$$cap_` marker or does not contain exactly one `:`;
otherwise it returns a fully populated reference whose `full` field echoes
the input, whose `fullName` and `isOfficial` are derived from namespace and
repository, and whose tag is the (possibly empty) text after the colon —
the repository and tag substrings may be empty. -/
theorem parseDockerImage_shape (s : String) :
    (parseDockerImage s = none ↔
      (hasSubStr s "$$cap_" = true ∨ s.data.countP (fun c => c == ':') ≠ 1)) ∧
    (∀ r, parseDockerImage s = some r →
      r.full = s ∧ r.fullName = r.nspace ++ "/" ++ r.repository ∧
        r.isOfficial = (r.nspace == "library") ∧
        ∃ nm : List Char, s.data = nm ++ ':' :: r.currentVersion.data) := by
  by_cases h0 : s = ""
  · subst h0
    constructor
    · simp [parseDockerImage]
    · intro r hr
      simp [parseDockerImage] at hr
  · by_cases h1 : hasSubStr s "$$cap_" = true
    · constructor
      · simp [parseDockerImage, h0, h1]
      · intro r hr
        simp [parseDockerImage, h0, h1] at hr
    · have hlen := length_splitOnPred (fun c => c == ':') s.data
      constructor
      · rw [show (parseDockerImage s = none ↔ _) = _ from rfl]
        constructor
        · intro hnone
          by_contra hcon
          push_neg at hcon
          obtain ⟨-, hcount⟩ := hcon
          have h2 : (splitOnPred (fun c => c == ':') s.data).length = 2 := by
            rw [hlen, hcount]
          obtain ⟨x, y, hx⟩ := List.length_eq_two.1 h2
          simp [parseDockerImage, h0, h1, hx] at hnone
        · intro hor
          rcases hor with hmark | hcount
          · exact absurd hmark h1
          · simp only [parseDockerImage, if_neg h0, if_neg h1]
            cases hsp : splitOnPred (fun c => c == ':') s.data with
            | nil => exact absurd hsp (splitOnPred_ne_nil _ _)
            | cons x xs =>
              cases xs with
              | nil => rfl
              | cons y ys =>
                cases ys with
                | nil =>
                  rw [hsp] at hlen
                  simp at hlen
                  omega
                | cons z zs => rfl
      · intro r hr
        simp only [parseDockerImage, if_neg h0, if_neg h1] at hr
        cases hsp : splitOnPred (fun c => c == ':') s.data with
        | nil => exact absurd hsp (splitOnPred_ne_nil _ _)
        | cons x xs =>
          rw [hsp] at hr
          cases xs with
          | nil => simp at hr
          | cons y ys =>
            cases ys with
            | nil =>
              simp only [Option.some.injEq] at hr
              obtain ⟨c, hc, hdecomp⟩ := splitOnPred_pair (p := fun c => c == ':') hsp
              have hcol : c = ':' := by simpa using hc
              refine ⟨?_, ?_, ?_, ⟨x, ?_⟩⟩
              · rw [← hr]; rfl
              · rw [← hr]; rfl
              · rw [← hr]; rfl
              · rw [← hr]
                simp only [buildImage]
                rw [hdecomp, hcol]
            | cons z zs => simp at hr

/-- Witness for `parseDockerImage_shape`: the parse of `nginx:1.21`
satisfies the shape conclusion. -/
theorem parseDockerImage_shape_witness :
    (⟨"nginx:1.21", "docker.io", "library", "nginx", "library/nginx", "1.21", true⟩ :
        DockerImage).full = "nginx:1.21" ∧
      (⟨"nginx:1.21", "docker.io", "library", "nginx", "library/nginx", "1.21", true⟩ :
          DockerImage).fullName = "library" ++ "/" ++ "nginx" ∧
      (⟨"nginx:1.21", "docker.io", "library", "nginx", "library/nginx", "1.21", true⟩ :
          DockerImage).isOfficial = ("library" == "library") ∧
      ∃ nm : List Char, ("nginx:1.21" : String).data = nm ++ ':' :: ("1.21" : String).data :=
  (parseDockerImage_shape "nginx:1.21").2 _ (by decide)

/-! ## Resolver exclusion invariant, parser marker rejection, detector -/

lemma processService_none_of_marker (base : String)
    (bindings : List (String × String)) (name img : String)
    (h : hasSubStr (resolvedOf img bindings) "$$" = true) :
    processService base bindings name img = none := by
  unfold processService
  by_cases h0 : img = ""
  · simp [h0]
  · by_cases hg : name ≠ "$$cap_appname" ∧ name ≠ "$$cap_appname-" ++ base
    · simp [h0, hg]
    · rw [if_neg h0, if_neg hg]
      by_cases hv : hasSubStr img "$$" = true
      · unfold resolvedOf at h
        rw [if_pos hv] at h
        simp [hv, h]
      · unfold resolvedOf at h
        rw [if_neg hv] at h
        exact absurd h hv

lemma extractServices_no_marker (base : String)
    (bindings : List (String × String)) (services : List (String × String))
    (e : ServiceEntry) (he : e ∈ extractServices base bindings services) :
    hasSubStr e.resolvedImage "$$" = false := by
  unfold extractServices at he
  rw [List.mem_filterMap] at he
  obtain ⟨sv, hsv, hps⟩ := he
  by_cases h0 : sv.2 = ""
  · simp [processService, h0] at hps
  · by_cases hg : sv.1 ≠ "$$cap_appname" ∧ sv.1 ≠ "$$cap_appname-" ++ base
    · simp [processService, h0, hg] at hps
    · simp only [processService, if_neg h0, if_neg hg] at hps
      by_cases hv : hasSubStr sv.2 "$$" = true
      · by_cases hres : hasSubStr (resolveVars sv.2 bindings) "$$" = true
        · simp [hv, hres] at hps
        · simp only [hv, hres, if_true, if_false, and_true, and_false,
            Bool.false_eq_true, if_neg] at hps
          cases hp : parseDockerImage (resolveVars sv.2 bindings) with
          | none => simp [hv, hp] at hps
          | some p =>
            simp [hv, hp] at hps
            rw [← hps]
            simpa using hres
      · have hv' : hasSubStr sv.2 "$$" = false := by
          cases hx : hasSubStr sv.2 "$$"
          · rfl
          · exact absurd hx hv
        cases hp : parseDockerImage sv.2 with
        | none => simp [hv', hp] at hps
        | some p =>
          simp [hv', hp] at hps
          rw [← hps]
          simpa using hv'

/-- C6: if the placeholder marker `$$` is still present in a service's image
string after all substitutions, that service is excluded: its processing
yields no entry, and every entry that does appear among the resolved
services has a marker-free resolved image. -/
theorem unresolved_marker_excluded :
    (∀ (base : String) (bindings : List (String × String)) (name img : String),
        hasSubStr (resolvedOf img bindings) "$$" = true →
          processService base bindings name img = none) ∧
    (∀ (base : String) (bindings : List (String × String))
        (services : List (String × String)) (e : ServiceEntry),
        e ∈ extractServices base bindings services →
          hasSubStr e.resolvedImage "$$" = false) :=
  ⟨processService_none_of_marker, extractServices_no_marker⟩

/-- Witness for `unresolved_marker_excluded`: a main service whose template
variable has no binding is excluded. -/
theorem unresolved_marker_excluded_witness :
    hasSubStr (resolvedOf "wordpress:$$cap_wp_version" []) "$$" = true ∧
      processService "wordpress" [] "$$cap_appname" "wordpress:$$cap_wp_version" = none :=
  ⟨by decide, unresolved_marker_excluded.1 "wordpress" [] "$$cap_appname"
    "wordpress:$$cap_wp_version" (by decide)⟩

/-- C9 (amended): every raw reference containing the `$$cap_` variable
prefix is rejected by the parser; the generic `$$` placeholder marker alone
is not rejected. -/
theorem parseDockerImage_rejects_cap_marker (s : String)
    (h : hasSubStr s "$$cap_" = true) : parseDockerImage s = none := by
  unfold parseDockerImage
  by_cases h0 : s = ""
  · simp [h0]
  · simp [h0, h]

/-- Witness for `parseDockerImage_rejects_cap_marker`. -/
theorem parseDockerImage_rejects_cap_marker_witness :
    hasSubStr "img:$$cap_version" "$$cap_" = true ∧
      parseDockerImage "img:$$cap_version" = none :=
  ⟨by decide, parseDockerImage_rejects_cap_marker "img:$$cap_version" (by decide)⟩

/-- C10 (amended): `detectUpdate` treats the absent candidate and the empty
candidate string (the only falsy string) as absent, returning `null`; the
string `"0"` is truthy in JS and is processed normally, producing a verdict. -/
theorem detectUpdate_falsy_absent (current : String) :
    detectUpdate current none = none ∧ detectUpdate current (some "") = none ∧
      (detectUpdate current (some "0")).isSome = true := by
  refine ⟨rfl, by simp [detectUpdate], ?_⟩
  simp only [detectUpdate]
  rw [if_neg (by decide : ¬("0" : String) = "")]
  split_ifs <;> rfl

/-- C5 (amended): for every present non-empty candidate string the detector
produces a verdict whose `hasUpdate` is true iff the comparator orders the
candidate strictly after the current version, and which carries an
`updateType` exactly when `hasUpdate` is true. -/
theorem detectUpdate_verdict (current cand : String) (h : cand ≠ "") :
    ∃ v, detectUpdate current (some cand) = some v ∧
      (v.hasUpdate = true ↔ compareVersions cand current = 1) ∧
      v.updateType.isSome = v.hasUpdate := by
  simp only [detectUpdate]
  rw [if_neg h]
  by_cases hc : compareVersions cand current > 0
  · rw [if_pos hc]
    refine ⟨_, rfl, ?_, rfl⟩
    have hr := compareVersions_mem cand current
    constructor
    · intro _; omega
    · intro _; rfl
  · rw [if_neg hc]
    refine ⟨_, rfl, ?_, rfl⟩
    constructor
    · intro hfalse; exact absurd hfalse (by simp)
    · intro h1; omega

/-- Witness for `detectUpdate_verdict` at a concrete present candidate. -/
theorem detectUpdate_verdict_witness :
    ("1.0.1" : String) ≠ "" ∧
      ∃ v, detectUpdate "1.0.0" (some "1.0.1") = some v ∧
        (v.hasUpdate = true ↔ compareVersions "1.0.1" "1.0.0" = 1) ∧
        v.updateType.isSome = v.hasUpdate :=
  ⟨by decide, detectUpdate_verdict "1.0.0" "1.0.1" (by decide)⟩

/-! ## Counterexamples refuting the claims as originally stated -/

/-- C1 counterexample: on `"9a"` vs `"10"` the §4.2 algorithm as stated
(non-purely-numeric tokens kept as strings) yields `1`, but the code yields
`-1`, because JS `parseInt("9a")` parses the leading digit prefix `9`. -/
theorem compareVersions_spec_counterexample :
    specCompareVersions "9a" "10" = 1 ∧ compareVersions "9a" "10" = -1 := by
  decide

/-- C2 counterexample: with current `"2"` and candidate `"2.5"` (which the
comparator orders strictly after `"2"`), the claim's classifier (missing
positions default to `0`) yields `"minor"`, but the code yields `"other"`,
because `5 > undefined` is false in JS. -/
theorem determineUpdateType_claim_counterexample :
    compareVersions "2.5" "2" = 1 ∧ determineUpdateType "2" "2.5" = "other" ∧
      claimClassify "2" "2.5" = "minor" := by
  decide

/-- C3 counterexample: with raw `"$$a$$a:1"` and the single binding
`$$a ↦ b`, the global-substitution resolver of the claim produces
`"bb:1"`, but the code, using `String.replace` with a string pattern,
replaces only the first occurrence and produces `"b$$a:1"`. -/
theorem resolveVars_global_counterexample :
    hasSubStr "$$a$$a:1" "$$" = true ∧
      resolveVars "$$a$$a:1" [("$$a", "b")] = "b$$a:1" ∧
      resolveVarsGlobal "$$a$$a:1" [("$$a", "b")] = "bb:1" := by
  decide

/-- C4 counterexample: on input `":"` the parser returns a populated value
whose repository and tag are both empty, contradicting the claimed
non-emptiness invariants. -/
theorem parseDockerImage_empty_fields_counterexample :
    (parseDockerImage ":").map DockerImage.repository = some "" ∧
      (parseDockerImage ":").map DockerImage.currentVersion = some "" := by
  decide

/-- C5 counterexample: the empty string is a present candidate, yet the
detector returns the absent result instead of a verdict, because `""` is
falsy in JS. -/
theorem detectUpdate_empty_counterexample :
    detectUpdate "1.0.0" (some "") = none := by
  decide

/-- C9 counterexample: `"a$$b:1"` contains the `$$` placeholder marker but
is parsed successfully, because the parser only rejects the `$$cap_`
prefix. -/
theorem parseDockerImage_marker_counterexample :
    hasSubStr "a$$b:1" "$$" = true ∧ (parseDockerImage "a$$b:1").isSome = true := by
  decide

/-- C10 counterexample: the string `"0"` is truthy in JS, so
`detectUpdate("1.0", "0")` invokes the comparator and returns a
`hasUpdate: false` verdict rather than `null`. -/
theorem detectUpdate_zero_counterexample :
    detectUpdate "1.0" (some "0") = some ⟨false, "1.0", "0", none⟩ := by
  decide

end OneClick





